import Mathlib

/-!
Verification development for the easy-rider bus-company validator
(`easyrider.py`).  The Python program is embedded shallowly:

* A raw JSON value reaching the core is modelled by `JValue`; a record is
  six optional fields (`dict.get` returns `None`, modelled by `none`).
  Python `bool` is a subclass of `int`, so `isinstance(x, int)` accepts
  booleans; value equality `==` identifies `True` with `1` and `False`
  with `0`, which `canon` normalises away.
* Mutation of the shared `ValidationResult` becomes explicit state
  passing; a Python exception (UnboundLocalError in
  `validate_bus_arrival_times`, ValueError in `a_time_to_minutes`)
  becomes the `none` branch of an `Option` result.
* `str.split` and Python `dict` (insertion-ordered, keyed by `==`) are
  modelled by `splitChars` and association lists with `bump`.
* Strings are processed as their character lists; `Char.isUpper`,
  `Char.isLower` and `Char.isDigit` coincide with the ASCII classes
  `[A-Z]`, `[a-z]`, `[0-9]` used by the regex in the source.  `int()`
  is modelled on strings of ASCII digits, the only shapes the program
  feeds it on the inputs studied here.
-/

/-- A raw JSON-ish value as the Python core sees it.  `other` stands for
any further hashable runtime value (e.g. a float or `None` nested in a
list); it is opaque apart from its identity tag. -/
inductive JValue where
  | int (n : Int)
  | str (s : String)
  | bool (b : Bool)
  | other (tag : Nat)
deriving DecidableEq, Repr

/-- Python `==` identifies `True` with `1` and `False` with `0`
(`bool` is a subclass of `int`); `canon` maps a value to the canonical
representative of its `==`-class. -/
def canon : JValue → JValue
  | .bool b => .int (if b then 1 else 0)
  | v => v

/-- Python `==` on two optional raw values (`none` is Python `None`,
equal only to itself). -/
def pyOEq (a b : Option JValue) : Bool :=
  decide (a.map canon = b.map canon)

/-- One raw input record: the six fields the program reads with
`item.get(...)`; a missing key yields `none`. -/
structure Record where
  bus_id : Option JValue
  stop_id : Option JValue
  stop_name : Option JValue
  next_stop : Option JValue
  stop_type : Option JValue
  a_time : Option JValue
deriving DecidableEq, Repr

/-- `BusStop.__init__`: stores the six raw field values unchanged. -/
structure BusStop where
  bus_id : Option JValue
  stop_id : Option JValue
  stop_name : Option JValue
  next_stop : Option JValue
  stop_type : Option JValue
  a_time : Option JValue
deriving DecidableEq, Repr

/-- Construction of a `BusStop` from a record in `BusCompany.__init__`. -/
def mkBusStop (r : Record) : BusStop :=
  ⟨r.bus_id, r.stop_id, r.stop_name, r.next_stop, r.stop_type, r.a_time⟩

/-- `BusLine`: a line identifier plus the stops appended to it, in input
order. -/
structure BusLine where
  line_id : Option JValue
  stops : List BusStop
deriving DecidableEq, Repr

/-- `ValidationResult`: the six error counters (Python defaults them
to 0; `zeroResult` below is the freshly constructed object). -/
structure ValidationResult where
  bus_id_errors : Nat
  stop_id_errors : Nat
  stop_name_errors : Nat
  next_stop_errors : Nat
  stop_type_errors : Nat
  a_time_errors : Nat
deriving DecidableEq, Repr

def zeroResult : ValidationResult := ⟨0, 0, 0, 0, 0, 0⟩

/-- The total printed by `ValidationResult.__repr__`. -/
def totalErrors (r : ValidationResult) : Nat :=
  r.bus_id_errors + r.stop_id_errors + r.stop_name_errors +
    r.next_stop_errors + r.stop_type_errors + r.a_time_errors

/-! ## Field validation (`validate_item`) -/

/-- Python `isinstance(v, int)`: true for integers and for booleans
(`bool` is a subclass of `int`), false for any other value and for a
missing field (`None`). -/
def isPyInt : Option JValue → Bool
  | some (.int _) => true
  | some (.bool _) => true
  | _ => false

/-- Python `s.split(sep)` for a one-character separator, on character
lists.  The result is the first chunk plus the remaining chunks, so it
is never empty (Python: `''.split(':') == ['']`). -/
def splitChars (sep : Char) : List Char → List Char × List (List Char)
  | [] => ([], [])
  | c :: cs =>
    let r := splitChars sep cs
    if c = sep then ([], r.1 :: r.2) else (c :: r.1, r.2)

/-- One `[A-Z][a-z]+` word of the stop-name regex: an ASCII capital
followed by one or more ASCII lowercase letters. -/
def isCapWord : List Char → Bool
  | [] => false
  | c :: rest => c.isUpper && !rest.isEmpty && rest.all Char.isLower

/-- The literal suffix alternatives of the stop-name regex. -/
def nameSuffixes : List (List Char) :=
  ["Road".data, "Avenue".data, "Boulevard".data, "Street".data]

/-- Full match of the regex body
`[A-Z][a-z]+(?: [A-Z][a-z]+)* (Road|Avenue|Boulevard|Street)` against a
whole character list.  Because neither the words nor the suffixes
contain a space and the separators are single spaces, a full match is
exactly: splitting on spaces yields at least two chunks, every chunk
but the last is a capitalised word, and the last chunk is one of the
four suffixes. -/
def coreNameMatch (cs : List Char) : Bool :=
  let r := splitChars ' ' cs
  let parts := r.1 :: r.2
  decide (2 ≤ parts.length) && parts.dropLast.all isCapWord &&
    nameSuffixes.contains (parts.getLastD [])

/-- `re.match(r'^...$', s)`: the unanchored-end subtlety of Python `$`,
which matches at the end of the string and also just before a newline
that is the last character. -/
def pyNameMatch (cs : List Char) : Bool :=
  coreNameMatch cs ||
    (match cs.getLast? with
     | some c => c = '\n' && coreNameMatch cs.dropLast
     | none => false)

/-- The `stop_name` rule of `validate_item`: a string, truthy
(non-empty), and matched by the regex. -/
def stopNameOk : Option JValue → Bool
  | some (.str s) => !s.data.isEmpty && pyNameMatch s.data
  | _ => false

/-- The `stop_type` rule: membership in the tuple `('S', 'O', 'F', '')`
under Python `==` (only equal strings qualify). -/
def stopTypeOk : Option JValue → Bool
  | some (.str s) => s = "S" || s = "O" || s = "F" || s = ""
  | _ => false

/-- The numeric value of a two-ASCII-digit chunk, as `int` computes it. -/
def twoDigitVal (a b : Char) : Nat :=
  (a.toNat - 48) * 10 + (b.toNat - 48)

/-- The `a_time` rule: a string of exactly five characters `HH:MM`,
both parts ASCII digits, hours below 24, minutes below 60. -/
def aTimeOk : Option JValue → Bool
  | some (.str s) =>
    match s.data with
    | [h1, h2, c, m1, m2] =>
      c = ':' && h1.isDigit && h2.isDigit && m1.isDigit && m2.isDigit &&
        decide (twoDigitVal h1 h2 < 24) && decide (twoDigitVal m1 m2 < 60)
    | _ => false
  | _ => false

/-- `validate_item`: the six independent checks, each failing one
incrementing its own counter. -/
def validate_item (item : Record) (result : ValidationResult) : ValidationResult :=
  { bus_id_errors := result.bus_id_errors + (if isPyInt item.bus_id then 0 else 1)
    stop_id_errors := result.stop_id_errors + (if isPyInt item.stop_id then 0 else 1)
    stop_name_errors := result.stop_name_errors + (if stopNameOk item.stop_name then 0 else 1)
    next_stop_errors := result.next_stop_errors + (if isPyInt item.next_stop then 0 else 1)
    stop_type_errors := result.stop_type_errors + (if stopTypeOk item.stop_type then 0 else 1)
    a_time_errors := result.a_time_errors + (if aTimeOk item.a_time then 0 else 1) }

/-- Number of field rules a record fails. -/
def failCount (item : Record) : Nat :=
  (if isPyInt item.bus_id then 0 else 1) + (if isPyInt item.stop_id then 0 else 1) +
    (if stopNameOk item.stop_name then 0 else 1) + (if isPyInt item.next_stop then 0 else 1) +
    (if stopTypeOk item.stop_type then 0 else 1) + (if aTimeOk item.a_time then 0 else 1)

/-- `validate_data`: fold `validate_item` over the records, starting
from a fresh all-zero result. -/
def validate_data (data : List Record) : ValidationResult :=
  data.foldl (fun res item => validate_item item res) zeroResult

/-! ## Grouping into lines (`BusCompany.__init__`) -/

/-- The lookup condition of `BusCompany._get_or_create_line`:
`line.stops and line.line_id == stop.bus_id` (a line with no stops is
never matched; in reachable states every line has at least one stop). -/
def lineMatches (l : BusLine) (s : BusStop) : Bool :=
  !l.stops.isEmpty && pyOEq l.line_id s.bus_id

/-- One iteration of the `BusCompany.__init__` loop: find the stop's
line (or create it at the end of the list) and append the stop. -/
def addStop : List BusLine → BusStop → List BusLine
  | [], s => [⟨s.bus_id, [s]⟩]
  | l :: ls, s =>
    if lineMatches l s then ⟨l.line_id, l.stops ++ [s]⟩ :: ls
    else l :: addStop ls s

/-- `BusCompany.__init__`: the list of bus lines built from the data,
in order of first appearance of each bus identifier. -/
def busLines (data : List Record) : List BusLine :=
  data.foldl (fun ls r => addStop ls (mkBusStop r)) []

/-! ## Flat per-bus tally (`count_bus_stops`) -/

/-- `defaultdict(int)` increment `d[k] += 1` on an insertion-ordered
association list keyed by Python `==`: bump the first matching entry,
or append a fresh entry with count 1. -/
def bump : List (Option JValue × Nat) → Option JValue → List (Option JValue × Nat)
  | [], k => [(k, 1)]
  | (k0, c) :: rest, k =>
    if pyOEq k0 k then (k0, c + 1) :: rest else (k0, c) :: bump rest k

/-- `count_bus_stops`: tally records per `bus_id` value. -/
def count_bus_stops (data : List Record) : List (Option JValue × Nat) :=
  data.foldl (fun d r => bump d r.bus_id) []

/-! ## Structural line check and line-info output -/

/-- `BusLine.is_line_valid`: exactly one stop compares equal to `'S'`
and exactly one compares equal to `'F'`. -/
def is_line_valid (l : BusLine) : Bool :=
  decide (l.stops.countP (fun s => pyOEq s.stop_type (some (.str "S"))) = 1) &&
    decide (l.stops.countP (fun s => pyOEq s.stop_type (some (.str "F"))) = 1)

/-- Python `str()` of a raw value as used by the f-strings (the `other`
constructor has an abstract rendering; no claim depends on it). -/
def jvalStr : Option JValue → String
  | none => "None"
  | some (.int n) => toString n
  | some (.str s) => s
  | some (.bool b) => if b then "True" else "False"
  | some (.other t) => "object " ++ toString t

/-- The per-line success line of `print_line_info`. -/
def lineEntry (l : BusLine) : String :=
  "bus_id: " ++ jvalStr l.line_id ++ " stops: " ++ toString l.stops.length

/-- The failure message of `print_line_info`. -/
def lineFailMsg (l : BusLine) : String :=
  "There is no start or end stop for the line: " ++ jvalStr l.line_id ++ "."

/-- `BusCompany.print_line_info` as the list of printed lines: an entry
per valid line until the first invalid line, whose failure message ends
the output (`break`). -/
def print_line_info : List BusLine → List String
  | [] => []
  | l :: ls =>
    if is_line_valid l then lineEntry l :: print_line_info ls
    else [lineFailMsg l]

/-! ## Stop classification (`print_stops_info`) -/

/-- All stops of all lines in iteration order
(`for line in bus_lines: for stop in line.stops`). -/
def allStops (lines : List BusLine) : List BusStop :=
  lines.flatMap (fun l => l.stops)

/-- `set.add` on an insertion-ordered list with Python `==`
membership. -/
def setAdd (s : List (Option JValue)) (v : Option JValue) : List (Option JValue) :=
  if s.any (fun x => pyOEq x v) then s else s ++ [v]

/-- Membership in such a set. -/
def memSet (v : Option JValue) (s : List (Option JValue)) : Bool :=
  s.any (fun x => pyOEq x v)

/-- The role-classification step of `print_stops_info`: the
`if / elif / elif` chain adding the stop name to the start, finish or
on-demand set. -/
def roleSetsStep (acc : List (Option JValue) × List (Option JValue) × List (Option JValue))
    (s : BusStop) :
    List (Option JValue) × List (Option JValue) × List (Option JValue) :=
  if pyOEq s.stop_type (some (.str "S")) then (setAdd acc.1 s.stop_name, acc.2.1, acc.2.2)
  else if pyOEq s.stop_type (some (.str "F")) then (acc.1, setAdd acc.2.1 s.stop_name, acc.2.2)
  else if pyOEq s.stop_type (some (.str "O")) then (acc.1, acc.2.1, setAdd acc.2.2 s.stop_name)
  else acc

/-- The `stop_count` dictionary of `print_stops_info`: occurrences of
each stop name across every stop of every line. -/
def stop_count (lines : List BusLine) : List (Option JValue × Nat) :=
  (allStops lines).foldl (fun d s => bump d s.stop_name) []

/-- The transfer set: names whose occurrence count exceeds 1, added in
dictionary insertion order. -/
def transfer_stops (lines : List BusLine) : List (Option JValue) :=
  (stop_count lines).foldl (fun t e => if 1 < e.2 then setAdd t e.1 else t) []

/-- `print_stops_info` as data: the four name sets, in the order
(start, transfer, finish, on-demand) in which they are printed (the
`sorted(...)` in the output is presentation only). -/
def print_stops_info (lines : List BusLine) :
    List (Option JValue) × List (Option JValue) × List (Option JValue) × List (Option JValue) :=
  let rs := (allStops lines).foldl roleSetsStep ([], [], [])
  (rs.1, transfer_stops lines, rs.2.1, rs.2.2)

/-! ## Arrival-time validation (`validate_bus_arrival_times`) -/

/-- Python `int` on the chunks `a_time.split(':')` produces: defined on
non-empty all-ASCII-digit strings, the shapes occurring in this
program; anything else raises (`none`). -/
def digitsToNat : List Char → Option Nat
  | [] => none
  | cs =>
    if cs.all Char.isDigit then
      some (cs.foldl (fun a c => a * 10 + (c.toNat - 48)) 0)
    else none

/-- `a_time_to_minutes` on the raw `a_time` value: `split(':')` must
yield exactly two parseable chunks, otherwise the call raises
(`none`); a non-string value raises on `.split` itself. -/
def a_time_to_minutes : Option JValue → Option Nat
  | some (.str s) =>
    match splitChars ':' s.data with
    | (h, [m]) =>
      match digitsToNat h, digitsToNat m with
      | some hh, some mm => some (hh * 60 + mm)
      | _, _ => none
    | _ => none
  | _ => none

/-- The inner loop of `validate_bus_arrival_times` over one line's
stops.  The first component of the state is `previous_time`: `none`
while the variable is still unbound, in which case reading it raises
UnboundLocalError (result `none`).  A comparison failure increments the
error count by 1 and `break`s, leaving `previous_time` unchanged.
Returns the final `previous_time` and the errors added for this line. -/
def checkLine : Option (Option JValue) → List BusStop →
    Option (Option (Option JValue) × Nat)
  | prev, [] => some (prev, 0)
  | prev, s :: rest =>
    if pyOEq s.stop_type (some (.str "S")) then checkLine (some s.a_time) rest
    else
      match prev with
      | none => none
      | some p =>
        match a_time_to_minutes s.a_time, a_time_to_minutes p with
        | some c, some pm =>
          if c < pm then some (some p, 1) else checkLine (some s.a_time) rest
        | _, _ => none

/-- The outer loop of `validate_bus_arrival_times`: `previous_time` is
a single function-local variable, so it is carried from one line to the
next, never reset. -/
def vbatAux : Option (Option JValue) → Nat → List BusLine → Option Nat
  | _, errs, [] => some errs
  | prev, errs, l :: ls =>
    match checkLine prev l.stops with
    | none => none
    | some (p, e) => vbatAux p (errs + e) ls

/-- `validate_bus_arrival_times`: updates the `a_time_errors` counter
of the shared result; `none` models the run raising an exception. -/
def validate_bus_arrival_times (lines : List BusLine) (res : ValidationResult) :
    Option ValidationResult :=
  (vbatAux none res.a_time_errors lines).map
    (fun e => { res with a_time_errors := e })

/-! ## Spec-side shape of a valid stop name -/

/-- Words joined by single spaces (the shape the stop-name rule
describes). -/
def joinWords : List (List Char) → List Char
  | [] => []
  | [w] => w
  | w :: ws => w ++ ' ' :: joinWords ws

/-- The stop-name shape as the specification words it: one or more
capitalised words, separated by single spaces, then a single space and
one of the four suffixes — with nothing else around it, except that the
implementation also tolerates one trailing newline (Python `$`). -/
def specNameShape (cs : List Char) : Prop :=
  ∃ ws sfx, ws ≠ [] ∧ (∀ w ∈ ws, isCapWord w = true) ∧ sfx ∈ nameSuffixes ∧
    (cs = joinWords (ws ++ [sfx]) ∨ cs = joinWords (ws ++ [sfx]) ++ ['\n'])

/-! ## Concrete inputs used by the claim instances -/

/-- A fully valid record (bus 128, a start stop). -/
def goodRec : Record :=
  ⟨some (.int 128), some (.int 1), some (.str "Sanford Avenue"),
    some (.int 3), some (.str "S"), some (.str "08:05")⟩

/-- `goodRec` with `bus_id` the string `"1"` instead of an integer. -/
def busIdStrRec : Record :=
  { goodRec with bus_id := some (.str "1") }

/-- `goodRec` with booleans in the three integer-checked fields. -/
def boolFieldsRec : Record :=
  { goodRec with
    bus_id := some (.bool true)
    stop_id := some (.bool false)
    next_stop := some (.bool true) }

/-- `goodRec` with a trailing newline in the stop name. -/
def newlineNameRec : Record :=
  { goodRec with stop_name := some (.str "Sanford Avenue\n") }

/-- A start stop of bus 1 at 08:00. -/
def stopS800 : BusStop :=
  ⟨some (.int 1), some (.int 1), some (.str "Abc Road"),
    some (.int 2), some (.str "S"), some (.str "08:00")⟩

/-- An on-demand stop of bus 1 at 08:10. -/
def stopO810 : BusStop :=
  { stopS800 with
    stop_id := some (.int 2)
    stop_type := some (.str "O")
    a_time := some (.str "08:10") }

/-- A finish stop of bus 1 at 07:59 (earlier than the baseline). -/
def stopF759 : BusStop :=
  { stopS800 with
    stop_id := some (.int 3)
    stop_type := some (.str "F")
    a_time := some (.str "07:59") }

/-- A further on-demand stop of bus 1 at 09:00, after the break. -/
def stopO900 : BusStop :=
  { stopS800 with
    stop_id := some (.int 4)
    stop_type := some (.str "O")
    a_time := some (.str "09:00") }

/-- Record form of `stopS800` (bus 1, start, 08:00). -/
def recBus1S : Record :=
  ⟨some (.int 1), some (.int 1), some (.str "Abc Road"),
    some (.int 2), some (.str "S"), some (.str "08:00")⟩

/-- A record of bus 2 whose only stop is a finish stop at 07:00:
its line never sees a start stop. -/
def recBus2F : Record :=
  ⟨some (.int 2), some (.int 5), some (.str "Def Road"),
    some (.int 6), some (.str "F"), some (.str "07:00")⟩

/-- A structurally valid line (one start, one finish). -/
def validLine1 : BusLine :=
  ⟨some (.int 1), [stopS800, { stopF759 with a_time := some (.str "08:30") }]⟩

/-- A second structurally valid line. -/
def validLine3 : BusLine :=
  ⟨some (.int 3), [stopS800, { stopF759 with a_time := some (.str "08:30") }]⟩

/-- A structurally invalid line (two start stops, no finish). -/
def invalidLine2 : BusLine :=
  ⟨some (.int 2), [stopS800, { stopS800 with stop_id := some (.int 9) }]⟩

/-! ## Derived definitions used in the statements -/

/-- The count the tally dictionary associates with (the `==`-class of)
a key. -/
def dictCount (d : List (Option JValue × Nat)) (v : Option JValue) : Nat :=
  ((d.find? (fun e => pyOEq e.1 v)).map (fun e => e.2)).getD 0

/-- Distinct keys under Python `==`. -/
def keysDistinct (d : List (Option JValue × Nat)) : Prop :=
  d.Pairwise (fun a b => a.1.map canon ≠ b.1.map canon)

/-- Pointwise order on the six error counters. -/
def counterLE (a b : ValidationResult) : Prop :=
  a.bus_id_errors ≤ b.bus_id_errors ∧ a.stop_id_errors ≤ b.stop_id_errors ∧
    a.stop_name_errors ≤ b.stop_name_errors ∧ a.next_stop_errors ≤ b.next_stop_errors ∧
    a.stop_type_errors ≤ b.stop_type_errors ∧ a.a_time_errors ≤ b.a_time_errors

/-- The record the flat tally keeps for one line: its key and its
stop count. -/
def lineKey (l : BusLine) : Option JValue × Nat :=
  (l.line_id, l.stops.length)

/-- All six field rules hold for a record. -/
def recordValid (item : Record) : Prop :=
  isPyInt item.bus_id = true ∧ isPyInt item.stop_id = true ∧
    stopNameOk item.stop_name = true ∧ isPyInt item.next_stop = true ∧
    stopTypeOk item.stop_type = true ∧ aTimeOk item.a_time = true

/-! ## General lemmas: Python equality and sets -/

theorem pyOEq_iff {a b : Option JValue} :
    pyOEq a b = true ↔ a.map canon = b.map canon := by
  simp [pyOEq]

theorem canon_map_eq_some_str {x : Option JValue} {t : String} :
    x.map canon = some (.str t) ↔ x = some (.str t) := by
  cases x with
  | none => simp
  | some v => cases v <;> simp [canon]

theorem pyOEq_some_str {x : Option JValue} {t : String} :
    pyOEq x (some (.str t)) = true ↔ x = some (.str t) := by
  rw [pyOEq_iff]
  simpa using canon_map_eq_some_str

theorem memSet_iff {v : Option JValue} {s : List (Option JValue)} :
    memSet v s = true ↔ ∃ x ∈ s, x.map canon = v.map canon := by
  simp [memSet, List.any_eq_true, pyOEq_iff]

theorem memSet_setAdd {v x : Option JValue} {s : List (Option JValue)} :
    memSet v (setAdd s x) = true ↔
      (memSet v s = true ∨ x.map canon = v.map canon) := by
  unfold setAdd
  by_cases h : s.any (fun y => pyOEq y x) = true
  · simp only [h, if_true]
    constructor
    · exact Or.inl
    · rintro (hm | hx)
      · exact hm
      · rcases List.any_eq_true.mp h with ⟨y, hy, hyx⟩
        exact memSet_iff.mpr ⟨y, hy, (pyOEq_iff.mp hyx).trans hx⟩
  · simp only [Bool.not_eq_true] at h
    simp only [h, if_false]
    rw [memSet_iff, memSet_iff]
    constructor
    · rintro ⟨y, hy, hc⟩
      rcases List.mem_append.mp hy with hy | hy
      · exact Or.inl ⟨y, hy, hc⟩
      · simp only [List.mem_singleton] at hy
        subst hy; exact Or.inr hc
    · rintro (⟨y, hy, hc⟩ | hc)
      · exact ⟨y, List.mem_append.mpr (Or.inl hy), hc⟩
      · exact ⟨x, List.mem_append.mpr (Or.inr (List.mem_singleton.mpr rfl)), hc⟩

/-- Membership after folding a conditional `setAdd` over a list,
covering both the role-set folds and the transfer-set fold. -/
theorem memSet_foldl_addIf {α : Type} (p : α → Bool) (f : α → Option JValue) :
    ∀ (l : List α) (acc : List (Option JValue)) (v : Option JValue),
      memSet v (l.foldl (fun s x => if p x then setAdd s (f x) else s) acc) = true ↔
        (memSet v acc = true ∨
          ∃ x ∈ l, p x = true ∧ (f x).map canon = v.map canon) := by
  intro l
  induction l with
  | nil => intro acc v; simp
  | cons a l ih =>
    intro acc v
    simp only [List.foldl_cons]
    by_cases hp : p a = true
    · simp only [hp, if_true]
      rw [ih, memSet_setAdd]
      constructor
      · rintro ((hm | hc) | ⟨x, hx, hpx, hcx⟩)
        · exact Or.inl hm
        · exact Or.inr ⟨a, List.mem_cons_self a l, hp, hc⟩
        · exact Or.inr ⟨x, List.mem_cons_of_mem a hx, hpx, hcx⟩
      · rintro (hm | ⟨x, hx, hpx, hcx⟩)
        · exact Or.inl (Or.inl hm)
        · rcases List.mem_cons.mp hx with rfl | hx
          · exact Or.inl (Or.inr hcx)
          · exact Or.inr ⟨x, hx, hpx, hcx⟩
    · simp only [hp, if_false]
      rw [ih]
      constructor
      · rintro (hm | ⟨x, hx, hpx, hcx⟩)
        · exact Or.inl hm
        · exact Or.inr ⟨x, List.mem_cons_of_mem a hx, hpx, hcx⟩
      · rintro (hm | ⟨x, hx, hpx, hcx⟩)
        · exact Or.inl hm
        · rcases List.mem_cons.mp hx with rfl | hx
          · exact absurd hpx (by simpa using hp)
          · exact Or.inr ⟨x, hx, hpx, hcx⟩

/-! ## General lemmas: the tally dictionary -/

theorem dictCount_bump (d : List (Option JValue × Nat)) (k v : Option JValue) :
    dictCount (bump d k) v =
      dictCount d v + (if k.map canon = v.map canon then 1 else 0) := by
  induction d with
  | nil =>
    by_cases h : k.map canon = v.map canon <;>
      simp [bump, dictCount, List.find?, pyOEq, h]
  | cons e rest ih =>
    obtain ⟨k0, c⟩ := e
    by_cases h0 : k0.map canon = k.map canon
    · have hbump : bump ((k0, c) :: rest) k = (k0, c + 1) :: rest := by
        simp [bump, pyOEq, h0]
      rw [hbump]
      by_cases h1 : k0.map canon = v.map canon
      · have h2 : k.map canon = v.map canon := h0.symm.trans h1
        simp [dictCount, List.find?, pyOEq, h1, h2]
      · have h2 : ¬ k.map canon = v.map canon := fun h => h1 (h0.trans h)
        simp [dictCount, List.find?, pyOEq, h1, h2]
    · have hbump : bump ((k0, c) :: rest) k = (k0, c) :: bump rest k := by
        simp [bump, pyOEq, h0]
      rw [hbump]
      by_cases h1 : k0.map canon = v.map canon
      · have h2 : ¬ k.map canon = v.map canon := fun h => h0 (h1.trans h.symm)
        simp [dictCount, List.find?, pyOEq, h1, h2]
      · simpa [dictCount, List.find?, pyOEq, h1] using ih

theorem dictCount_foldl_bump (ks : List (Option JValue))
    (d : List (Option JValue × Nat)) (v : Option JValue) :
    dictCount (ks.foldl bump d) v =
      dictCount d v + ks.countP (fun k => pyOEq k v) := by
  induction ks generalizing d with
  | nil => simp
  | cons k ks ih =>
    simp only [List.foldl_cons, ih, dictCount_bump]
    by_cases h : k.map canon = v.map canon <;>
      simp [List.countP_cons, pyOEq, h, Nat.add_assoc, Nat.add_comm]

/-- Every key of `bump d k` is a key of `d` or is `k` itself. -/
theorem bump_key_mem {d : List (Option JValue × Nat)} {k : Option JValue}
    {e : Option JValue × Nat} (he : e ∈ bump d k) :
    (∃ c, (e.1, c) ∈ d) ∨ e.1 = k := by
  induction d with
  | nil =>
    simp only [bump, List.mem_singleton] at he
    subst he; exact Or.inr rfl
  | cons e0 rest ih =>
    obtain ⟨k0, c⟩ := e0
    by_cases h0 : pyOEq k0 k = true
    · simp only [bump, h0, if_true, List.mem_cons] at he
      rcases he with rfl | he
      · exact Or.inl ⟨c, List.mem_cons_self _ _⟩
      · exact Or.inl ⟨e.2, List.mem_cons_of_mem _ he⟩
    · simp only [bump, h0] at he
      rcases List.mem_cons.mp he with rfl | he
      · exact Or.inl ⟨c, List.mem_cons_self _ _⟩
      · rcases ih he with ⟨c1, hc1⟩ | hk
        · exact Or.inl ⟨c1, List.mem_cons_of_mem _ hc1⟩
        · exact Or.inr hk

theorem keysDistinct_bump {d : List (Option JValue × Nat)} {k : Option JValue}
    (hd : keysDistinct d) : keysDistinct (bump d k) := by
  induction d with
  | nil =>
    simp [bump, keysDistinct]
  | cons e0 rest ih =>
    obtain ⟨k0, c⟩ := e0
    rcases List.pairwise_cons.mp hd with ⟨hk0, hrest⟩
    by_cases h0 : pyOEq k0 k = true
    · have : bump ((k0, c) :: rest) k = (k0, c + 1) :: rest := by simp [bump, h0]
      rw [keysDistinct, this]
      exact List.pairwise_cons.mpr ⟨fun e he => hk0 e he, hrest⟩
    · have hb : bump ((k0, c) :: rest) k = (k0, c) :: bump rest k := by simp [bump, h0]
      rw [keysDistinct, hb]
      refine List.pairwise_cons.mpr ⟨?_, ih hrest⟩
      intro e he
      rcases bump_key_mem he with ⟨c1, hc1⟩ | hk
      · exact hk0 (e.1, c1) hc1
      · rw [hk]
        intro hcontra
        exact h0 (pyOEq_iff.mpr hcontra)

theorem keysDistinct_foldl_bump (ks : List (Option JValue)) :
    keysDistinct (ks.foldl bump []) := by
  have h : ∀ (d : List (Option JValue × Nat)), keysDistinct d →
      keysDistinct (ks.foldl bump d) := by
    induction ks with
    | nil => intro d hd; exact hd
    | cons k ks ih =>
      intro d hd
      exact ih _ (keysDistinct_bump hd)
  exact h [] (by simp [keysDistinct])

/-- With distinct keys, `find?` locates exactly the member entry of the
queried `==`-class. -/
theorem find?_of_keysDistinct {d : List (Option JValue × Nat)}
    {e : Option JValue × Nat} {v : Option JValue} (hd : keysDistinct d)
    (he : e ∈ d) (hc : e.1.map canon = v.map canon) :
    d.find? (fun x => pyOEq x.1 v) = some e := by
  induction d with
  | nil => cases he
  | cons e0 rest ih =>
    rcases List.pairwise_cons.mp hd with ⟨h0, hrest⟩
    rcases List.mem_cons.mp he with rfl | he
    · have : pyOEq e.1 v = true := pyOEq_iff.mpr hc
      simp [List.find?, this]
    · have hne : e0.1.map canon ≠ v.map canon := fun h => (h0 e he) (h.trans hc.symm)
      have : pyOEq e0.1 v = false := by
        rw [Bool.eq_false_iff]
        intro hcontra
        exact hne (pyOEq_iff.mp hcontra)
      simp [List.find?, this]
      exact ih hrest he

/-! ## General lemmas: role sets and transfer set -/

theorem pyOEq_str_excl {x : Option JValue} {t1 : String} (t2 : String) (hne : t1 ≠ t2)
    (h1 : pyOEq x (some (.str t1)) = true) : pyOEq x (some (.str t2)) = false := by
  rw [Bool.eq_false_iff]
  intro h2
  exact hne (by
    have e1 := pyOEq_some_str.mp h1
    have e2 := pyOEq_some_str.mp h2
    rw [e1] at e2
    exact (by simpa using e2))

theorem roleSetsStep_fst (acc : List (Option JValue) × List (Option JValue) × List (Option JValue))
    (s : BusStop) :
    (roleSetsStep acc s).1 =
      if pyOEq s.stop_type (some (.str "S")) then setAdd acc.1 s.stop_name else acc.1 := by
  unfold roleSetsStep
  by_cases h1 : pyOEq s.stop_type (some (.str "S")) = true
  · simp [h1]
  · simp only [Bool.not_eq_true] at h1
    by_cases h2 : pyOEq s.stop_type (some (.str "F")) = true
    · simp [h1, h2]
    · simp only [Bool.not_eq_true] at h2
      by_cases h3 : pyOEq s.stop_type (some (.str "O")) = true
      · simp [h1, h2, h3]
      · simp only [Bool.not_eq_true] at h3
        simp [h1, h2, h3]

theorem roleSetsStep_finish
    (acc : List (Option JValue) × List (Option JValue) × List (Option JValue))
    (s : BusStop) :
    (roleSetsStep acc s).2.1 =
      if pyOEq s.stop_type (some (.str "F")) then setAdd acc.2.1 s.stop_name else acc.2.1 := by
  unfold roleSetsStep
  by_cases h1 : pyOEq s.stop_type (some (.str "S")) = true
  · have h2 := pyOEq_str_excl "F" (by decide) h1
    simp [h1, h2]
  · simp only [Bool.not_eq_true] at h1
    by_cases h2 : pyOEq s.stop_type (some (.str "F")) = true
    · simp [h1, h2]
    · simp only [Bool.not_eq_true] at h2
      by_cases h3 : pyOEq s.stop_type (some (.str "O")) = true
      · simp [h1, h2, h3]
      · simp only [Bool.not_eq_true] at h3
        simp [h1, h2, h3]

theorem roleSetsStep_demand
    (acc : List (Option JValue) × List (Option JValue) × List (Option JValue))
    (s : BusStop) :
    (roleSetsStep acc s).2.2 =
      if pyOEq s.stop_type (some (.str "O")) then setAdd acc.2.2 s.stop_name else acc.2.2 := by
  unfold roleSetsStep
  by_cases h1 : pyOEq s.stop_type (some (.str "S")) = true
  · have h3 := pyOEq_str_excl "O" (by decide) h1
    simp [h1, h3]
  · simp only [Bool.not_eq_true] at h1
    by_cases h2 : pyOEq s.stop_type (some (.str "F")) = true
    · have h3 := pyOEq_str_excl "O" (by decide) h2
      simp [h1, h2, h3]
    · simp only [Bool.not_eq_true] at h2
      by_cases h3 : pyOEq s.stop_type (some (.str "O")) = true
      · simp [h1, h2, h3]
      · simp only [Bool.not_eq_true] at h3
        simp [h1, h2, h3]

theorem roleSets_foldl_fst (stops : List BusStop)
    (acc : List (Option JValue) × List (Option JValue) × List (Option JValue)) :
    (stops.foldl roleSetsStep acc).1 =
      stops.foldl
        (fun t s => if pyOEq s.stop_type (some (.str "S")) then setAdd t s.stop_name else t)
        acc.1 := by
  induction stops generalizing acc with
  | nil => rfl
  | cons a l ih =>
    simp only [List.foldl_cons, ih, roleSetsStep_fst]

theorem roleSets_foldl_finish (stops : List BusStop)
    (acc : List (Option JValue) × List (Option JValue) × List (Option JValue)) :
    (stops.foldl roleSetsStep acc).2.1 =
      stops.foldl
        (fun t s => if pyOEq s.stop_type (some (.str "F")) then setAdd t s.stop_name else t)
        acc.2.1 := by
  induction stops generalizing acc with
  | nil => rfl
  | cons a l ih =>
    simp only [List.foldl_cons, ih]
    rw [roleSetsStep_finish]

theorem roleSets_foldl_demand (stops : List BusStop)
    (acc : List (Option JValue) × List (Option JValue) × List (Option JValue)) :
    (stops.foldl roleSetsStep acc).2.2 =
      stops.foldl
        (fun t s => if pyOEq s.stop_type (some (.str "O")) then setAdd t s.stop_name else t)
        acc.2.2 := by
  induction stops generalizing acc with
  | nil => rfl
  | cons a l ih =>
    simp only [List.foldl_cons, ih]
    rw [roleSetsStep_demand]

/-! ## General lemmas: stops of the built lines vs. the raw records -/

theorem allStops_nil : allStops [] = [] := rfl

theorem allStops_cons (l : BusLine) (ls : List BusLine) :
    allStops (l :: ls) = l.stops ++ allStops ls := rfl

theorem countP_allStops_addStop (p : BusStop → Bool) :
    ∀ (ls : List BusLine) (s : BusStop),
      (allStops (addStop ls s)).countP p =
        (allStops ls).countP p + (if p s then 1 else 0) := by
  intro ls
  induction ls with
  | nil =>
    intro s
    simp [addStop, allStops, List.countP_cons]
  | cons l ls ih =>
    intro s
    by_cases h : lineMatches l s = true
    · rw [show addStop (l :: ls) s = ⟨l.line_id, l.stops ++ [s]⟩ :: ls by
        simp [addStop, h]]
      rw [allStops_cons, allStops_cons]
      simp only [List.countP_append, List.countP_cons]
      simp only [List.countP_nil]
      omega
    · rw [show addStop (l :: ls) s = l :: addStop ls s by simp [addStop, h]]
      rw [allStops_cons, allStops_cons]
      simp only [List.countP_append, ih]
      omega

theorem mem_allStops_addStop {x : BusStop} :
    ∀ {ls : List BusLine} {s : BusStop},
      x ∈ allStops (addStop ls s) ↔ x ∈ allStops ls ∨ x = s := by
  intro ls
  induction ls with
  | nil =>
    intro s
    simp [addStop, allStops]
  | cons l ls ih =>
    intro s
    by_cases h : lineMatches l s = true
    · rw [show addStop (l :: ls) s = ⟨l.line_id, l.stops ++ [s]⟩ :: ls by
        simp [addStop, h]]
      rw [allStops_cons, allStops_cons]
      simp only [List.mem_append, List.mem_singleton]
      tauto
    · rw [show addStop (l :: ls) s = l :: addStop ls s by simp [addStop, h]]
      rw [allStops_cons, allStops_cons]
      simp only [List.mem_append, ih]
      tauto

theorem countP_allStops_busLines (data : List Record) (p : BusStop → Bool) :
    (allStops (busLines data)).countP p =
      data.countP (fun r => p (mkBusStop r)) := by
  have aux : ∀ (ds : List Record) (ls : List BusLine),
      (allStops (ds.foldl (fun ls r => addStop ls (mkBusStop r)) ls)).countP p =
        (allStops ls).countP p + ds.countP (fun r => p (mkBusStop r)) := by
    intro ds
    induction ds with
    | nil => intro ls; simp
    | cons r ds ih =>
      intro ls
      simp only [List.foldl_cons, ih, countP_allStops_addStop, List.countP_cons]
      omega
  simpa [busLines, allStops_nil] using aux data []

theorem mem_allStops_busLines {data : List Record} {x : BusStop} :
    x ∈ allStops (busLines data) ↔ ∃ r ∈ data, x = mkBusStop r := by
  have aux : ∀ (ds : List Record) (ls : List BusLine),
      (x ∈ allStops (ds.foldl (fun ls r => addStop ls (mkBusStop r)) ls)) ↔
        x ∈ allStops ls ∨ ∃ r ∈ ds, x = mkBusStop r := by
    intro ds
    induction ds with
    | nil => intro ls; simp
    | cons r ds ih =>
      intro ls
      simp only [List.foldl_cons, ih, mem_allStops_addStop, List.mem_cons]
      constructor
      · rintro ((hm | hm) | ⟨r1, hr1, hx⟩)
        · exact Or.inl hm
        · exact Or.inr ⟨r, Or.inl rfl, hm⟩
        · exact Or.inr ⟨r1, Or.inr hr1, hx⟩
      · rintro (hm | ⟨r1, (rfl | hr1), hx⟩)
        · exact Or.inl (Or.inl hm)
        · exact Or.inl (Or.inr hx)
        · exact Or.inr ⟨r1, hr1, hx⟩
  simpa [busLines, allStops_nil] using aux data []

/-! ## General lemmas: transfer-set membership -/

theorem stop_count_eq_foldl_bump (lines : List BusLine) :
    stop_count lines = ((allStops lines).map (fun s => s.stop_name)).foldl bump [] := by
  rw [stop_count, List.foldl_map]

theorem mem_transfer_iff {lines : List BusLine} {v : Option JValue} :
    memSet v (transfer_stops lines) = true ↔
      2 ≤ (allStops lines).countP (fun s => pyOEq s.stop_name v) := by
  have hfun : (fun (t : List (Option JValue)) (e : Option JValue × Nat) =>
        if 1 < e.2 then setAdd t e.1 else t) =
      (fun t e => if (fun (e : Option JValue × Nat) => decide (1 < e.2)) e
        then setAdd t e.1 else t) := by
    funext t e
    by_cases h : 1 < e.2 <;> simp [h]
  have hdist : keysDistinct (stop_count lines) := by
    rw [stop_count_eq_foldl_bump]
    exact keysDistinct_foldl_bump _
  have hcount : dictCount (stop_count lines) v =
      (allStops lines).countP (fun s => pyOEq s.stop_name v) := by
    rw [stop_count_eq_foldl_bump, dictCount_foldl_bump]
    simp only [List.countP_map, dictCount, List.find?]
    simp [Function.comp_def]
  rw [transfer_stops, hfun, memSet_foldl_addIf]
  simp only [memSet, List.any_nil, Bool.false_eq_true, false_or]
  constructor
  · rintro ⟨e, he, h2, hc⟩
    have hfind := find?_of_keysDistinct hdist he hc
    have hcnt : dictCount (stop_count lines) v = e.2 := by
      simp [dictCount, hfind]
    have h2n : 1 < e.2 := of_decide_eq_true h2
    rw [← hcount, hcnt]
    omega
  · intro h2
    rcases hfind : (stop_count lines).find? (fun x => pyOEq x.1 v) with _ | e
    · rw [← hcount] at h2
      simp [dictCount, hfind] at h2
    · have hmem := List.mem_of_find?_eq_some hfind
      have hpred := List.find?_some hfind
      have hcnt : dictCount (stop_count lines) v = e.2 := by
        simp [dictCount, hfind]
      refine ⟨e, hmem, ?_, pyOEq_iff.mp (by simpa using hpred)⟩
      have h2e : 2 ≤ e.2 := by
        rw [← hcnt, hcount]; exact h2
      simpa using h2e

/-! ## General lemmas: the stop-name shape -/

theorem splitChars_no_sep {sep : Char} {w : List Char}
    (h : ∀ c ∈ w, c ≠ sep) : splitChars sep w = (w, []) := by
  induction w with
  | nil => rfl
  | cons c cs ih =>
    have hc : c ≠ sep := h c (List.mem_cons_self _ _)
    have ih1 := ih (fun x hx => h x (List.mem_cons_of_mem _ hx))
    simp [splitChars, hc, ih1]

theorem splitChars_append_word {sep : Char} {w cs : List Char}
    (h : ∀ c ∈ w, c ≠ sep) :
    splitChars sep (w ++ cs) =
      (w ++ (splitChars sep cs).1, (splitChars sep cs).2) := by
  induction w with
  | nil => simp
  | cons c w ih =>
    have hc : c ≠ sep := h c (List.mem_cons_self _ _)
    have ih1 := ih (fun x hx => h x (List.mem_cons_of_mem _ hx))
    simp [splitChars, hc, ih1]

theorem joinWords_cons_cons (w x : List Char) (ws : List (List Char)) :
    joinWords (w :: x :: ws) = w ++ ' ' :: joinWords (x :: ws) := rfl

theorem joinWords_splitChars : ∀ cs : List Char,
    joinWords ((splitChars ' ' cs).1 :: (splitChars ' ' cs).2) = cs := by
  intro cs
  induction cs with
  | nil => rfl
  | cons c cs ih =>
    by_cases hc : c = ' '
    · subst hc
      simp only [splitChars, if_pos rfl]
      rcases hr : splitChars ' ' cs with ⟨p, ps⟩
      rw [hr] at ih
      simpa [joinWords_cons_cons] using ih
    · simp only [splitChars, if_neg hc]
      rcases hr : splitChars ' ' cs with ⟨p, ps⟩
      rw [hr] at ih
      cases ps with
      | nil => simpa [joinWords] using ih
      | cons q qs =>
        rw [joinWords_cons_cons] at ih
        simp [joinWords_cons_cons, ih]

theorem splitChars_joinWords :
    ∀ (ps : List (List Char)) (p : List Char),
      (∀ w ∈ p :: ps, ∀ c ∈ w, c ≠ ' ') →
      splitChars ' ' (joinWords (p :: ps)) = (p, ps) := by
  intro ps
  induction ps with
  | nil =>
    intro p h
    exact splitChars_no_sep (h p (List.mem_cons_self _ _))
  | cons q qs ih =>
    intro p h
    rw [joinWords_cons_cons,
      splitChars_append_word (h p (List.mem_cons_self _ _))]
    have hq := ih q (fun w hw => h w (List.mem_cons_of_mem _ hw))
    simp only [splitChars, if_pos rfl]
    rw [hq]
    simp

theorem isCapWord_no_space {w : List Char} (h : isCapWord w = true) :
    ∀ c ∈ w, c ≠ ' ' := by
  cases w with
  | nil => simp [isCapWord] at h
  | cons d rest =>
    simp only [isCapWord, Bool.and_eq_true] at h
    obtain ⟨⟨hd, _⟩, hrest⟩ := h
    intro c hc
    rcases List.mem_cons.mp hc with rfl | hc
    · intro habs
      rw [habs] at hd
      exact absurd hd (by decide)
    · have := List.all_eq_true.mp hrest c hc
      intro habs
      rw [habs] at this
      exact absurd this (by decide)

theorem nameSuffixes_no_space : ∀ w ∈ nameSuffixes, ∀ c ∈ w, c ≠ ' ' := by
  decide

theorem coreNameMatch_iff {cs : List Char} :
    coreNameMatch cs = true ↔
      ∃ ws sfx, ws ≠ [] ∧ (∀ w ∈ ws, isCapWord w = true) ∧
        sfx ∈ nameSuffixes ∧ cs = joinWords (ws ++ [sfx]) := by
  constructor
  · intro h
    rcases hr : splitChars ' ' cs with ⟨p, ps⟩
    rw [coreNameMatch, hr] at h
    simp only [Bool.and_eq_true, decide_eq_true_eq] at h
    obtain ⟨⟨hlen, hwords⟩, hsfx⟩ := h
    have hne : (p :: ps) ≠ [] := by simp
    have hsplit : p :: ps = (p :: ps).dropLast ++ [(p :: ps).getLast hne] :=
      (List.dropLast_concat_getLast hne).symm
    refine ⟨(p :: ps).dropLast, (p :: ps).getLast hne, ?_, ?_, ?_, ?_⟩
    · intro habs
      have hld : (p :: ps).dropLast.length = (p :: ps).length - 1 :=
        List.length_dropLast _
      rw [habs] at hld
      simp only [List.length_nil] at hld
      omega
    · intro w hw
      exact List.all_eq_true.mp hwords w hw
    · have hlast : (p :: ps).getLastD [] = (p :: ps).getLast hne := by
        rw [List.getLastD_eq_getLast?, List.getLast?_eq_getLast _ hne]
        rfl
      rw [hlast] at hsfx
      rcases List.contains_iff_exists_mem_beq.mp hsfx with ⟨a, ha, hbeq⟩
      rwa [show (p :: ps).getLast hne = a from eq_of_beq hbeq]
    · have hjoin := joinWords_splitChars cs
      rw [hr] at hjoin
      rw [← hjoin]
      exact congrArg joinWords hsplit
  · rintro ⟨ws, sfx, hne, hwords, hsfx, rfl⟩
    cases ws with
    | nil => exact absurd rfl hne
    | cons w0 ws1 =>
      have hfree : ∀ w ∈ w0 :: (ws1 ++ [sfx]), ∀ c ∈ w, c ≠ ' ' := by
        intro w hw
        rcases List.mem_cons.mp hw with rfl | hw
        · exact isCapWord_no_space (hwords w (List.mem_cons_self _ _))
        · rcases List.mem_append.mp hw with hw | hw
          · exact isCapWord_no_space (hwords w (List.mem_cons_of_mem _ hw))
          · simp only [List.mem_singleton] at hw
            subst hw
            exact nameSuffixes_no_space w hsfx
      have hsc := splitChars_joinWords (ws1 ++ [sfx]) w0 hfree
      rw [show (w0 :: ws1) ++ [sfx] = w0 :: (ws1 ++ [sfx]) from rfl]
      rw [coreNameMatch, hsc]
      simp only [Bool.and_eq_true, decide_eq_true_eq]
      refine ⟨⟨?_, ?_⟩, ?_⟩
      · simp
      · rw [show w0 :: (ws1 ++ [sfx]) = (w0 :: ws1) ++ [sfx] from rfl,
          List.dropLast_concat]
        exact List.all_eq_true.mpr (fun w hw => hwords w hw)
      · rw [show w0 :: (ws1 ++ [sfx]) = (w0 :: ws1) ++ [sfx] from rfl,
          List.getLastD_concat]
        exact List.contains_iff_exists_mem_beq.mpr ⟨sfx, hsfx, by simp⟩

theorem pyNameMatch_iff {cs : List Char} :
    pyNameMatch cs = true ↔ specNameShape cs := by
  constructor
  · intro h
    rw [pyNameMatch, Bool.or_eq_true] at h
    rcases h with h | h
    · rcases coreNameMatch_iff.mp h with ⟨ws, sfx, h1, h2, h3, h4⟩
      exact ⟨ws, sfx, h1, h2, h3, Or.inl h4⟩
    · rcases hcl : cs.getLast? with _ | c
      · rw [hcl] at h
        simp at h
      · rw [hcl] at h
        simp only [Bool.and_eq_true, decide_eq_true_eq] at h
        obtain ⟨hc, hcore⟩ := h
        subst hc
        have hne : cs ≠ [] := by
          intro habs
          rw [habs] at hcl
          simp [List.getLast?] at hcl
        have hlast : cs.getLast hne = '\n' := by
          have := List.getLast?_eq_getLast cs hne
          rw [hcl] at this
          exact (Option.some_injective _ this).symm
        rcases coreNameMatch_iff.mp hcore with ⟨ws, sfx, h1, h2, h3, h4⟩
        refine ⟨ws, sfx, h1, h2, h3, Or.inr ?_⟩
        have hcs : cs = cs.dropLast ++ [cs.getLast hne] :=
          (List.dropLast_concat_getLast hne).symm
        rw [hlast] at hcs
        rw [hcs, h4]
  · rintro ⟨ws, sfx, h1, h2, h3, (rfl | rfl)⟩
    · rw [pyNameMatch, Bool.or_eq_true]
      exact Or.inl (coreNameMatch_iff.mpr ⟨ws, sfx, h1, h2, h3, rfl⟩)
    · rw [pyNameMatch, Bool.or_eq_true]
      refine Or.inr ?_
      rw [List.getLast?_concat, List.dropLast_concat]
      simp only [Bool.and_eq_true, decide_eq_true_eq]
      exact ⟨by trivial, coreNameMatch_iff.mpr ⟨ws, sfx, h1, h2, h3, rfl⟩⟩

theorem stopNameOk_eq_pyNameMatch (s : String) :
    stopNameOk (some (.str s)) = pyNameMatch s.data := by
  rcases hd : s.data with _ | ⟨c, cs⟩
  · have : pyNameMatch [] = false := by decide
    simp [stopNameOk, hd, this]
  · simp [stopNameOk, hd]

/-! ## General lemmas: the arrival-time scan -/

theorem checkLine_cons_start (prev : Option (Option JValue)) (s : BusStop)
    (rest : List BusStop) (hS : pyOEq s.stop_type (some (.str "S")) = true) :
    checkLine prev (s :: rest) = checkLine (some s.a_time) rest := by
  simp [checkLine, hS]

theorem checkLine_cons_unbound (s : BusStop) (rest : List BusStop)
    (hS : pyOEq s.stop_type (some (.str "S")) = false) :
    checkLine none (s :: rest) = none := by
  simp [checkLine, hS]

theorem checkLine_cons_vals (p : Option JValue) (s : BusStop)
    (rest : List BusStop) (c pm : Nat)
    (hS : pyOEq s.stop_type (some (.str "S")) = false)
    (hc : a_time_to_minutes s.a_time = some c)
    (hp : a_time_to_minutes p = some pm) :
    checkLine (some p) (s :: rest) =
      if c < pm then some (some p, 1) else checkLine (some s.a_time) rest := by
  simp [checkLine, hS, hc, hp]

theorem checkLine_cons_badc (p : Option JValue) (s : BusStop)
    (rest : List BusStop)
    (hS : pyOEq s.stop_type (some (.str "S")) = false)
    (hc : a_time_to_minutes s.a_time = none) :
    checkLine (some p) (s :: rest) = none := by
  simp [checkLine, hS, hc]

theorem checkLine_cons_badp (p : Option JValue) (s : BusStop)
    (rest : List BusStop) (c : Nat)
    (hS : pyOEq s.stop_type (some (.str "S")) = false)
    (hc : a_time_to_minutes s.a_time = some c)
    (hp : a_time_to_minutes p = none) :
    checkLine (some p) (s :: rest) = none := by
  simp [checkLine, hS, hc, hp]

theorem checkLine_err_le_one :
    ∀ (stops : List BusStop) (prev b : Option (Option JValue)) (e : Nat),
      checkLine prev stops = some (b, e) → e ≤ 1 := by
  intro stops
  induction stops with
  | nil =>
    intro prev b e h
    simp only [checkLine, Option.some_inj, Prod.mk.injEq] at h
    omega
  | cons s rest ih =>
    intro prev b e h
    by_cases hS : pyOEq s.stop_type (some (.str "S")) = true
    · rw [checkLine_cons_start _ _ _ hS] at h
      exact ih _ _ _ h
    · have hS' : pyOEq s.stop_type (some (.str "S")) = false := by simpa using hS
      cases prev with
      | none =>
        rw [checkLine_cons_unbound _ _ hS'] at h
        exact absurd h (by simp)
      | some p =>
        rcases hc : a_time_to_minutes s.a_time with _ | c
        · rw [checkLine_cons_badc _ _ _ hS' hc] at h
          exact absurd h (by simp)
        · rcases hpm : a_time_to_minutes p with _ | pm
          · rw [checkLine_cons_badp _ _ _ _ hS' hc hpm] at h
            exact absurd h (by simp)
          · rw [checkLine_cons_vals _ _ _ _ _ hS' hc hpm] at h
            by_cases hlt : c < pm
            · rw [if_pos hlt] at h
              simp only [Option.some_inj, Prod.mk.injEq] at h
              omega
            · rw [if_neg hlt] at h
              exact ih _ _ _ h

theorem checkLine_append :
    ∀ (xs : List BusStop) (prev b : Option (Option JValue)) (e : Nat)
      (ys : List BusStop),
      checkLine prev xs = some (b, e) →
      checkLine prev (xs ++ ys) = if e = 0 then checkLine b ys else some (b, e) := by
  intro xs
  induction xs with
  | nil =>
    intro prev b e ys h
    simp only [checkLine, Option.some_inj, Prod.mk.injEq] at h
    obtain ⟨rfl, rfl⟩ := h
    simp
  | cons s rest ih =>
    intro prev b e ys h
    rw [List.cons_append]
    by_cases hS : pyOEq s.stop_type (some (.str "S")) = true
    · rw [checkLine_cons_start _ _ _ hS] at h
      rw [checkLine_cons_start _ _ _ hS]
      exact ih _ _ _ _ h
    · have hS' : pyOEq s.stop_type (some (.str "S")) = false := by simpa using hS
      cases prev with
      | none =>
        rw [checkLine_cons_unbound _ _ hS'] at h
        exact absurd h (by simp)
      | some p =>
        rcases hc : a_time_to_minutes s.a_time with _ | c
        · rw [checkLine_cons_badc _ _ _ hS' hc] at h
          exact absurd h (by simp)
        · rcases hpm : a_time_to_minutes p with _ | pm
          · rw [checkLine_cons_badp _ _ _ _ hS' hc hpm] at h
            exact absurd h (by simp)
          · rw [checkLine_cons_vals _ _ _ _ _ hS' hc hpm] at h
            rw [checkLine_cons_vals _ _ _ _ _ hS' hc hpm]
            by_cases hlt : c < pm
            · rw [if_pos hlt] at h ⊢
              simp only [Option.some_inj, Prod.mk.injEq] at h
              obtain ⟨rfl, rfl⟩ := h
              simp
            · rw [if_neg hlt] at h ⊢
              exact ih _ _ _ _ h

theorem checkLine_equal_continue (p : Option JValue) (s : BusStop)
    (rest : List BusStop) (c pm : Nat)
    (hS : pyOEq s.stop_type (some (.str "S")) = false)
    (hc : a_time_to_minutes s.a_time = some c)
    (hp : a_time_to_minutes p = some pm) (heq : c = pm) :
    checkLine (some p) (s :: rest) = checkLine (some s.a_time) rest := by
  subst heq
  rw [checkLine_cons_vals _ _ _ _ _ hS hc hp, if_neg (Nat.lt_irrefl c)]

theorem vbatAux_cons (prev : Option (Option JValue)) (errs : Nat)
    (l : BusLine) (ls : List BusLine) :
    vbatAux prev errs (l :: ls) =
      match checkLine prev l.stops with
      | none => none
      | some (p, e) => vbatAux p (errs + e) ls := rfl

theorem vbatAux_le :
    ∀ (lines : List BusLine) (prev : Option (Option JValue)) (errs out : Nat),
      vbatAux prev errs lines = some out → errs ≤ out := by
  intro lines
  induction lines with
  | nil =>
    intro prev errs out h
    simp only [vbatAux, Option.some_inj] at h
    omega
  | cons l ls ih =>
    intro prev errs out h
    rw [vbatAux_cons] at h
    rcases hce : checkLine prev l.stops with _ | ⟨p, e⟩ <;> rw [hce] at h
    · exact absurd h (by simp)
    · have := ih _ _ _ h
      omega

theorem vbatAux_le_add_length :
    ∀ (lines : List BusLine) (prev : Option (Option JValue)) (errs out : Nat),
      vbatAux prev errs lines = some out → out ≤ errs + lines.length := by
  intro lines
  induction lines with
  | nil =>
    intro prev errs out h
    simp only [vbatAux, Option.some_inj] at h
    simp [← h]
  | cons l ls ih =>
    intro prev errs out h
    rw [vbatAux_cons] at h
    rcases hce : checkLine prev l.stops with _ | ⟨p, e⟩ <;> rw [hce] at h
    · exact absurd h (by simp)
    · have h1 := checkLine_err_le_one l.stops _ _ _ hce
      have h2 := ih _ _ _ h
      simp only [List.length_cons]
      omega

/-! ## General lemmas: grouping vs. flat tally -/

theorem addStop_stops_ne_nil {ls : List BusLine} {s : BusStop}
    (h : ∀ l ∈ ls, l.stops ≠ []) :
    ∀ l ∈ addStop ls s, l.stops ≠ [] := by
  induction ls with
  | nil =>
    intro l hl
    simp only [addStop, List.mem_singleton] at hl
    subst hl
    simp
  | cons l0 ls ih =>
    intro l hl
    by_cases hm : lineMatches l0 s = true
    · rw [show addStop (l0 :: ls) s = ⟨l0.line_id, l0.stops ++ [s]⟩ :: ls by
        simp [addStop, hm]] at hl
      rcases List.mem_cons.mp hl with rfl | hl
      · simp
      · exact h l (List.mem_cons_of_mem _ hl)
    · rw [show addStop (l0 :: ls) s = l0 :: addStop ls s by simp [addStop, hm]] at hl
      rcases List.mem_cons.mp hl with rfl | hl
      · exact h l (List.mem_cons_self _ _)
      · exact ih (fun x hx => h x (List.mem_cons_of_mem _ hx)) l hl

theorem bump_map_lineKey {ls : List BusLine} {s : BusStop}
    (h : ∀ l ∈ ls, l.stops ≠ []) :
    bump (ls.map lineKey) s.bus_id = (addStop ls s).map lineKey := by
  induction ls with
  | nil => simp [bump, addStop, lineKey]
  | cons l0 ls ih =>
    have h0 : l0.stops ≠ [] := h l0 (List.mem_cons_self _ _)
    have hie : l0.stops.isEmpty = false := by
      simpa [List.isEmpty_iff] using h0
    by_cases hq : pyOEq l0.line_id s.bus_id = true
    · have hm : lineMatches l0 s = true := by
        simp [lineMatches, hie, hq]
      rw [show addStop (l0 :: ls) s = ⟨l0.line_id, l0.stops ++ [s]⟩ :: ls by
        simp [addStop, hm]]
      simp only [List.map_cons, lineKey, bump, hq, if_pos]
      simp
    · have hm : lineMatches l0 s = false := by
        simp [lineMatches, hie, hq]
      rw [show addStop (l0 :: ls) s = l0 :: addStop ls s by simp [addStop, hm]]
      simp only [List.map_cons, lineKey, bump]
      rw [if_neg (by simp [hq])]
      rw [ih (fun x hx => h x (List.mem_cons_of_mem _ hx))]

/-! ## General lemmas: counter monotonicity -/

theorem counterLE_validate_item (item : Record) (res : ValidationResult) :
    counterLE res (validate_item item res) := by
  refine ⟨?_, ?_, ?_, ?_, ?_, ?_⟩ <;>
    simp [validate_item, counterLE, Nat.le_add_right]

theorem counterLE_trans {a b c : ValidationResult}
    (h1 : counterLE a b) (h2 : counterLE b c) : counterLE a c := by
  obtain ⟨x1, x2, x3, x4, x5, x6⟩ := h1
  obtain ⟨y1, y2, y3, y4, y5, y6⟩ := h2
  exact ⟨Nat.le_trans x1 y1, Nat.le_trans x2 y2, Nat.le_trans x3 y3,
    Nat.le_trans x4 y4, Nat.le_trans x5 y5, Nat.le_trans x6 y6⟩

theorem counterLE_foldl (data : List Record) :
    ∀ res : ValidationResult,
      counterLE res (data.foldl (fun r i => validate_item i r) res) := by
  induction data with
  | nil =>
    intro res
    exact ⟨Nat.le_refl _, Nat.le_refl _, Nat.le_refl _, Nat.le_refl _,
      Nat.le_refl _, Nat.le_refl _⟩
  | cons item data ih =>
    intro res
    rw [List.foldl_cons]
    exact counterLE_trans (counterLE_validate_item item res) (ih _)

/-! ## Claim theorems -/

/-- C7: `is_line_valid` returns true iff the line has exactly one stop
of role `S` and exactly one stop of role `F`, counted over all its
stops regardless of position; in particular any line with two `S`
stops is invalid no matter its `F` stops. -/
theorem c7_is_line_valid_iff :
    (∀ l : BusLine,
      is_line_valid l = true ↔
        (l.stops.countP (fun s => decide (s.stop_type = some (.str "S"))) = 1 ∧
          l.stops.countP (fun s => decide (s.stop_type = some (.str "F"))) = 1)) ∧
    (∀ l : BusLine,
      l.stops.countP (fun s => decide (s.stop_type = some (.str "S"))) = 2 →
      is_line_valid l = false) := by
  have hfun : ∀ t : String,
      (fun s : BusStop => pyOEq s.stop_type (some (.str t))) =
        (fun s : BusStop => decide (s.stop_type = some (.str t))) := by
    intro t
    funext s
    by_cases h : s.stop_type = some (.str t)
    · rw [h]
      simp [pyOEq]
    · rw [show decide (s.stop_type = some (.str t)) = false by simpa using h]
      rw [Bool.eq_false_iff]
      intro hc
      exact h (pyOEq_some_str.mp hc)
  have hiff : ∀ l : BusLine,
      is_line_valid l = true ↔
        (l.stops.countP (fun s => decide (s.stop_type = some (.str "S"))) = 1 ∧
          l.stops.countP (fun s => decide (s.stop_type = some (.str "F"))) = 1) := by
    intro l
    rw [is_line_valid, hfun "S", hfun "F"]
    simp
  refine ⟨hiff, ?_⟩
  intro l h2
  rw [Bool.eq_false_iff]
  intro hc
  have := (hiff l).mp hc
  omega

/-- C6: the six field rules are checked independently: each counter of
`validate_item` grows by one exactly when its own rule fails, the total
grows by the number of failing rules, and the record with `bus_id` the
string "1" and all other fields valid increments only the bus_id
counter. -/
theorem c6_rules_independent :
    (∀ (item : Record) (res : ValidationResult),
      (validate_item item res).bus_id_errors =
        res.bus_id_errors + (if isPyInt item.bus_id then 0 else 1) ∧
      (validate_item item res).stop_id_errors =
        res.stop_id_errors + (if isPyInt item.stop_id then 0 else 1) ∧
      (validate_item item res).stop_name_errors =
        res.stop_name_errors + (if stopNameOk item.stop_name then 0 else 1) ∧
      (validate_item item res).next_stop_errors =
        res.next_stop_errors + (if isPyInt item.next_stop then 0 else 1) ∧
      (validate_item item res).stop_type_errors =
        res.stop_type_errors + (if stopTypeOk item.stop_type then 0 else 1) ∧
      (validate_item item res).a_time_errors =
        res.a_time_errors + (if aTimeOk item.a_time then 0 else 1) ∧
      totalErrors (validate_item item res) = totalErrors res + failCount item) ∧
    validate_item busIdStrRec zeroResult = ⟨1, 0, 0, 0, 0, 0⟩ := by
  constructor
  · intro item res
    refine ⟨rfl, rfl, rfl, rfl, rfl, rfl, ?_⟩
    simp only [totalErrors, validate_item, failCount]
    omega
  · decide

/-- C9: a boolean in any of `bus_id`, `stop_id` or `next_stop` passes
the integer type check (Python `bool` is a subclass of `int`), so the
corresponding counter is not incremented. -/
theorem c9_bool_passes_int_checks :
    (∀ (item : Record) (res : ValidationResult) (b : Bool),
      item.bus_id = some (.bool b) →
      (validate_item item res).bus_id_errors = res.bus_id_errors) ∧
    (∀ (item : Record) (res : ValidationResult) (b : Bool),
      item.stop_id = some (.bool b) →
      (validate_item item res).stop_id_errors = res.stop_id_errors) ∧
    (∀ (item : Record) (res : ValidationResult) (b : Bool),
      item.next_stop = some (.bool b) →
      (validate_item item res).next_stop_errors = res.next_stop_errors) := by
  refine ⟨?_, ?_, ?_⟩ <;>
    (intro item res b h; simp [validate_item, h, isPyInt])

/-- Witness for C9: the record with booleans in all three integer
fields leaves the three counters unchanged. -/
theorem c9_witness :
    (validate_item boolFieldsRec zeroResult).bus_id_errors =
      zeroResult.bus_id_errors ∧
    (validate_item boolFieldsRec zeroResult).stop_id_errors =
      zeroResult.stop_id_errors ∧
    (validate_item boolFieldsRec zeroResult).next_stop_errors =
      zeroResult.next_stop_errors :=
  ⟨c9_bool_passes_int_checks.1 boolFieldsRec zeroResult true rfl,
    c9_bool_passes_int_checks.2.1 boolFieldsRec zeroResult false rfl,
    c9_bool_passes_int_checks.2.2 boolFieldsRec zeroResult true rfl⟩

/-- C5 fails as stated: the name "Sanford Avenue\n" carries a trailing
newline, yet `validate_item` records no stop_name error for it, because
the Python `$` anchor also matches just before a final newline. -/
theorem c5_counterexample :
    newlineNameRec.stop_name = some (.str "Sanford Avenue\n") ∧
    (validate_item newlineNameRec zeroResult).stop_name_errors = 0 := by
  exact ⟨rfl, by decide⟩

/-- C5 (amended): the stop_name counter is left unchanged iff the field
is a string of the shape one-or-more capitalised words separated by
single spaces, then a single space and one of `Road`, `Avenue`,
`Boulevard`, `Street` — optionally followed by one trailing newline
(accepted by Python `$`); any other value, including any non-string,
increments the counter; "Sanford Avenue" is accepted while
"sanford Avenue", "Sanford avenue", "Sanford Aven" and "" are
rejected. -/
theorem c5_stop_name_rule :
    (∀ (item : Record) (res : ValidationResult) (s : String),
      item.stop_name = some (.str s) →
      ((validate_item item res).stop_name_errors = res.stop_name_errors ↔
        specNameShape s.data)) ∧
    (∀ (item : Record) (res : ValidationResult),
      (∀ s : String, item.stop_name ≠ some (.str s)) →
      (validate_item item res).stop_name_errors = res.stop_name_errors + 1) ∧
    stopNameOk (some (.str "Sanford Avenue")) = true ∧
    stopNameOk (some (.str "Sanford Avenue\n")) = true ∧
    stopNameOk (some (.str "sanford Avenue")) = false ∧
    stopNameOk (some (.str "Sanford avenue")) = false ∧
    stopNameOk (some (.str "Sanford Aven")) = false ∧
    stopNameOk (some (.str "")) = false := by
  refine ⟨?_, ?_, by decide, by decide, by decide, by decide, by decide, by decide⟩
  · intro item res s h
    rw [show (validate_item item res).stop_name_errors =
        res.stop_name_errors + (if stopNameOk item.stop_name then 0 else 1) from rfl,
      h, stopNameOk_eq_pyNameMatch]
    by_cases hm : pyNameMatch s.data = true
    · simp only [hm, if_true, Nat.add_zero]
      simp [pyNameMatch_iff.mp hm]
    · have hm' : pyNameMatch s.data = false := by simpa using hm
      rw [hm']
      simp only [Bool.false_eq_true, if_false]
      constructor
      · intro hx
        omega
      · intro hx
        exact absurd (pyNameMatch_iff.mpr hx) (by simp [hm'])
  · intro item res h
    rw [show (validate_item item res).stop_name_errors =
        res.stop_name_errors + (if stopNameOk item.stop_name then 0 else 1) from rfl]
    rcases hv : item.stop_name with _ | v
    · rfl
    · cases v with
      | str s => exact absurd hv (h s)
      | int n => rfl
      | bool b => rfl
      | other t => rfl

/-- Witness for C5 (amended): applied to the fully valid record, whose
name "Sanford Avenue" has the accepted shape. -/
theorem c5_witness :
    (validate_item goodRec zeroResult).stop_name_errors =
      zeroResult.stop_name_errors ↔ specNameShape "Sanford Avenue".data :=
  c5_stop_name_rule.1 goodRec zeroResult "Sanford Avenue" rfl

/-- C2 fails as stated: with the valid line created before the invalid
one, `print_line_info` prints the valid line's `bus_id:` entry and then
the failure message, not the failure message alone. -/
theorem c2_counterexample :
    is_line_valid validLine1 = true ∧
    is_line_valid invalidLine2 = false ∧
    print_line_info [validLine1, invalidLine2] =
      ["bus_id: 1 stops: 2",
        "There is no start or end stop for the line: 2."] := by
  exact ⟨by decide, by decide, by decide⟩

/-- C2 (amended): `print_line_info` prints one `bus_id: <id> stops:
<count>` entry per line until the first structurally invalid line; at
that line it prints the failure message and stops; all entries appear
exactly when every line is valid. -/
theorem c2_line_info :
    (∀ lines : List BusLine,
      (∀ l ∈ lines, is_line_valid l = true) →
      print_line_info lines = lines.map lineEntry) ∧
    (∀ (pre : List BusLine) (inv : BusLine) (rest : List BusLine),
      (∀ l ∈ pre, is_line_valid l = true) →
      is_line_valid inv = false →
      print_line_info (pre ++ inv :: rest) =
        pre.map lineEntry ++ [lineFailMsg inv]) := by
  constructor
  · intro lines
    induction lines with
    | nil => intro h; rfl
    | cons l ls ih =>
      intro h
      rw [print_line_info, if_pos (h l (List.mem_cons_self _ _)),
        ih (fun x hx => h x (List.mem_cons_of_mem _ hx)), List.map_cons]
  · intro pre
    induction pre with
    | nil =>
      intro inv rest _ hinv
      rw [List.nil_append, print_line_info, if_neg (by simp [hinv])]
      rfl
    | cons l ls ih =>
      intro inv rest h hinv
      rw [List.cons_append, print_line_info,
        if_pos (h l (List.mem_cons_self _ _)),
        ih inv rest (fun x hx => h x (List.mem_cons_of_mem _ hx)) hinv,
        List.map_cons, List.cons_append]

/-- Witness for C2 (amended): lines [valid, invalid, valid] produce the
valid line's entry followed by the failure message, and nothing for the
third line. -/
theorem c2_witness :
    print_line_info [validLine1, invalidLine2, validLine3] =
      [lineEntry validLine1, lineFailMsg invalidLine2] :=
  c2_line_info.2 [validLine1] invalidLine2 [validLine3]
    (by
      intro l hl
      rw [List.mem_singleton] at hl
      subst hl
      decide)
    (by decide)

/-- C1 fails on the code: `previous_time` is one function-local of
`validate_bus_arrival_times`, never reset between lines.  With bus 1 =
[S at 08:00] and bus 2 = [F at 07:00], the second line has no `S` stop,
yet its stop is compared against the first line's baseline and an
arrival-time error is recorded (the claim requires the comparison to be
skipped with no error).  With bus 2 alone, the comparison reads the
unbound variable and the scan raises UnboundLocalError (modelled as
`none`) instead of skipping. -/
theorem c1_cross_line_baseline :
    busLines [recBus1S, recBus2F] =
      [⟨some (.int 1), [mkBusStop recBus1S]⟩,
        ⟨some (.int 2), [mkBusStop recBus2F]⟩] ∧
    (busLines [recBus1S, recBus2F]).map
      (fun l => l.stops.countP (fun s => decide (s.stop_type = some (.str "S")))) =
      [1, 0] ∧
    validate_bus_arrival_times (busLines [recBus1S, recBus2F]) zeroResult =
      some ⟨0, 0, 0, 0, 0, 1⟩ ∧
    validate_bus_arrival_times (busLines [recBus2F]) zeroResult = none := by
  exact ⟨by decide, by decide, by decide, by decide⟩

/-- C4: the scan of one line records at most one arrival-time error;
after an error-free prefix, the first non-start stop strictly earlier
than the current baseline yields exactly one error and every stop after
it in that line is ignored; a non-start stop whose time equals the
baseline yields no error and its time becomes the new baseline; hence a
whole run adds at most one error per line. -/
theorem c4_single_error_per_line :
    (∀ (stops : List BusStop) (prev b : Option (Option JValue)) (e : Nat),
      checkLine prev stops = some (b, e) → e ≤ 1) ∧
    (∀ (pre : List BusStop) (prev : Option (Option JValue)) (p : Option JValue)
      (s : BusStop) (rest : List BusStop) (c pm : Nat),
      checkLine prev pre = some (some p, 0) →
      pyOEq s.stop_type (some (.str "S")) = false →
      a_time_to_minutes s.a_time = some c →
      a_time_to_minutes p = some pm →
      c < pm →
      checkLine prev (pre ++ s :: rest) = some (some p, 1)) ∧
    (∀ (p : Option JValue) (s : BusStop) (rest : List BusStop) (c pm : Nat),
      pyOEq s.stop_type (some (.str "S")) = false →
      a_time_to_minutes s.a_time = some c →
      a_time_to_minutes p = some pm →
      c = pm →
      checkLine (some p) (s :: rest) = checkLine (some s.a_time) rest) ∧
    (∀ (lines : List BusLine) (res res' : ValidationResult),
      validate_bus_arrival_times lines res = some res' →
      res'.a_time_errors ≤ res.a_time_errors + lines.length) := by
  refine ⟨checkLine_err_le_one, ?_, checkLine_equal_continue, ?_⟩
  · intro pre prev p s rest c pm hpre hS hc hp hlt
    rw [checkLine_append pre prev (some p) 0 (s :: rest) hpre, if_pos rfl,
      checkLine_cons_vals p s rest c pm hS hc hp, if_pos hlt]
  · intro lines res res' h
    rw [validate_bus_arrival_times] at h
    rcases ho : vbatAux none res.a_time_errors lines with _ | out
    · rw [ho] at h
      exact absurd h (by simp)
    · rw [ho] at h
      simp only [Option.map_some', Option.some_inj] at h
      have hle := vbatAux_le_add_length lines none res.a_time_errors out ho
      rw [← h]
      exact hle

/-- Witness for C4: the line [S at 08:00, O at 08:10, F at 07:59,
O at 09:00] records exactly one error at the F stop, keeps the 08:10
baseline, and ignores the stop after the break. -/
theorem c4_witness :
    checkLine none ([stopS800, stopO810] ++ stopF759 :: [stopO900]) =
      some (some (some (.str "08:10")), 1) :=
  c4_single_error_per_line.2.1 [stopS800, stopO810] none
    (some (.str "08:10")) stopF759 [stopO900] 479 490
    (by decide) (by decide) (by decide) (by decide) (by decide)

theorem memSet_roleFold (t : String) (stops : List BusStop) (v : Option JValue) :
    memSet v (stops.foldl
      (fun acc s => if pyOEq s.stop_type (some (.str t)) then setAdd acc s.stop_name else acc)
      []) = true ↔
    ∃ s ∈ stops, s.stop_type = some (.str t) ∧
      s.stop_name.map canon = v.map canon := by
  rw [memSet_foldl_addIf (fun s : BusStop => pyOEq s.stop_type (some (.str t)))
    (fun s : BusStop => s.stop_name) stops [] v]
  simp only [memSet, List.any_nil, Bool.false_eq_true, false_or]
  exact exists_congr fun s => and_congr Iff.rfl (and_congr pyOEq_some_str Iff.rfl)

theorem exists_allStops_iff (data : List Record) (P : BusStop → Prop) :
    (∃ s ∈ allStops (busLines data), P s) ↔ ∃ r ∈ data, P (mkBusStop r) := by
  constructor
  · rintro ⟨s, hs, hP⟩
    rcases mem_allStops_busLines.mp hs with ⟨r, hr, rfl⟩
    exact ⟨r, hr, hP⟩
  · rintro ⟨r, hr, hP⟩
    exact ⟨mkBusStop r, mem_allStops_busLines.mpr ⟨r, hr, rfl⟩, hP⟩

/-- C3: a name is in the transfer set iff at least two records of the
whole dataset carry it, counted over all lines combined and regardless
of role; membership in the start, finish and on-demand sets is exactly
the existence of a record with that name whose own role field is `S`,
`F`, `O` respectively, so records with any other role contribute to
none of the three role sets. -/
theorem c3_stop_classification :
    ∀ (data : List Record) (v : Option JValue),
      (memSet v (print_stops_info (busLines data)).2.1 = true ↔
        2 ≤ data.countP (fun r => pyOEq r.stop_name v)) ∧
      (memSet v (print_stops_info (busLines data)).1 = true ↔
        ∃ r ∈ data, r.stop_type = some (.str "S") ∧
          r.stop_name.map canon = v.map canon) ∧
      (memSet v (print_stops_info (busLines data)).2.2.1 = true ↔
        ∃ r ∈ data, r.stop_type = some (.str "F") ∧
          r.stop_name.map canon = v.map canon) ∧
      (memSet v (print_stops_info (busLines data)).2.2.2 = true ↔
        ∃ r ∈ data, r.stop_type = some (.str "O") ∧
          r.stop_name.map canon = v.map canon) := by
  intro data v
  refine ⟨?_, ?_, ?_, ?_⟩
  · rw [show (print_stops_info (busLines data)).2.1 =
        transfer_stops (busLines data) from rfl]
    rw [mem_transfer_iff,
      countP_allStops_busLines data (fun s => pyOEq s.stop_name v)]
    exact Iff.rfl
  · rw [show (print_stops_info (busLines data)).1 =
        ((allStops (busLines data)).foldl roleSetsStep ([], [], [])).1 from rfl]
    rw [roleSets_foldl_fst, memSet_roleFold]
    exact exists_allStops_iff data
      (fun s => s.stop_type = some (.str "S") ∧ s.stop_name.map canon = v.map canon)
  · rw [show (print_stops_info (busLines data)).2.2.1 =
        ((allStops (busLines data)).foldl roleSetsStep ([], [], [])).2.1 from rfl]
    rw [roleSets_foldl_finish, memSet_roleFold]
    exact exists_allStops_iff data
      (fun s => s.stop_type = some (.str "F") ∧ s.stop_name.map canon = v.map canon)
  · rw [show (print_stops_info (busLines data)).2.2.2 =
        ((allStops (busLines data)).foldl roleSetsStep ([], [], [])).2.2 from rfl]
    rw [roleSets_foldl_demand, memSet_roleFold]
    exact exists_allStops_iff data
      (fun s => s.stop_type = some (.str "O") ∧ s.stop_name.map canon = v.map canon)

/-- C8: during a run each of the six counters is non-decreasing — per
record under `validate_item`, over any extension of the record list,
and under the temporal check, which only raises the a_time counter and
leaves the other five unchanged; the reported total is the sum of the
six counters; and a record set satisfying all six rules yields the
all-zero result. -/
theorem c8_counters_monotone :
    (∀ (item : Record) (res : ValidationResult),
      counterLE res (validate_item item res)) ∧
    (∀ (d1 d2 : List Record) (res : ValidationResult),
      counterLE (d1.foldl (fun r i => validate_item i r) res)
        ((d1 ++ d2).foldl (fun r i => validate_item i r) res)) ∧
    (∀ (lines : List BusLine) (res res' : ValidationResult),
      validate_bus_arrival_times lines res = some res' →
      res.a_time_errors ≤ res'.a_time_errors ∧
      res'.bus_id_errors = res.bus_id_errors ∧
      res'.stop_id_errors = res.stop_id_errors ∧
      res'.stop_name_errors = res.stop_name_errors ∧
      res'.next_stop_errors = res.next_stop_errors ∧
      res'.stop_type_errors = res.stop_type_errors) ∧
    (∀ res : ValidationResult,
      totalErrors res = res.bus_id_errors + res.stop_id_errors +
        res.stop_name_errors + res.next_stop_errors +
        res.stop_type_errors + res.a_time_errors) ∧
    (∀ data : List Record,
      (∀ item ∈ data, recordValid item) → validate_data data = zeroResult) := by
  refine ⟨counterLE_validate_item, ?_, ?_, fun res => rfl, ?_⟩
  · intro d1 d2 res
    rw [List.foldl_append]
    exact counterLE_foldl d2 _
  · intro lines res res' h
    rw [validate_bus_arrival_times] at h
    rcases ho : vbatAux none res.a_time_errors lines with _ | out
    · rw [ho] at h
      exact absurd h (by simp)
    · rw [ho] at h
      simp only [Option.map_some', Option.some_inj] at h
      have hle := vbatAux_le lines none res.a_time_errors out ho
      rw [← h]
      exact ⟨hle, rfl, rfl, rfl, rfl, rfl⟩
  · have hstep : ∀ (item : Record) (res : ValidationResult),
        recordValid item → validate_item item res = res := by
      intro item res hv
      obtain ⟨h1, h2, h3, h4, h5, h6⟩ := hv
      simp [validate_item, h1, h2, h3, h4, h5, h6]
    intro data
    rw [validate_data]
    induction data with
    | nil => intro _; rfl
    | cons item data ih =>
      intro h
      rw [List.foldl_cons, hstep item zeroResult (h item (List.mem_cons_self _ _))]
      exact ih (fun x hx => h x (List.mem_cons_of_mem _ hx))

/-- Witness for C8: a singleton valid record set yields the all-zero
result, and the temporal check on the single-stop line of bus 1 leaves
every counter of the zero result in place. -/
theorem c8_witness :
    validate_data [goodRec] = zeroResult ∧
    (zeroResult.a_time_errors ≤ zeroResult.a_time_errors ∧
      zeroResult.bus_id_errors = zeroResult.bus_id_errors ∧
      zeroResult.stop_id_errors = zeroResult.stop_id_errors ∧
      zeroResult.stop_name_errors = zeroResult.stop_name_errors ∧
      zeroResult.next_stop_errors = zeroResult.next_stop_errors ∧
      zeroResult.stop_type_errors = zeroResult.stop_type_errors) :=
  ⟨c8_counters_monotone.2.2.2.2 [goodRec]
      (by
        intro item h
        rw [List.mem_singleton] at h
        subst h
        exact ⟨by decide, by decide, by decide, by decide, by decide, by decide⟩),
    c8_counters_monotone.2.2.1 (busLines [recBus1S]) zeroResult zeroResult
      (by decide)⟩

/-- C10: the flat per-bus tally of `count_bus_stops` is exactly the
(line identifier, stop count) sequence of the lines `BusCompany`
builds from the same data, so the per-bus counts and the key sequence
agree with the grouped model. -/
theorem c10_count_matches_lines :
    ∀ data : List Record,
      count_bus_stops data = (busLines data).map lineKey ∧
      (count_bus_stops data).map (fun e => e.1) =
        (busLines data).map (fun l => l.line_id) := by
  have aux : ∀ (ds : List Record) (ls : List BusLine),
      (∀ l ∈ ls, l.stops ≠ []) →
      ds.foldl (fun d r => bump d r.bus_id) (ls.map lineKey) =
        (ds.foldl (fun ls r => addStop ls (mkBusStop r)) ls).map lineKey := by
    intro ds
    induction ds with
    | nil => intro ls _; rfl
    | cons r ds ih =>
      intro ls h
      simp only [List.foldl_cons]
      rw [show bump (ls.map lineKey) r.bus_id =
          bump (ls.map lineKey) (mkBusStop r).bus_id from rfl,
        bump_map_lineKey h]
      exact ih _ (addStop_stops_ne_nil h)
  intro data
  have h1 := aux data [] (by simp)
  simp only [List.map_nil] at h1
  have h2 : count_bus_stops data = (busLines data).map lineKey := h1
  refine ⟨h2, ?_⟩
  rw [h2, List.map_map]
  rfl

/-- Witness for C7: the line holding two `S` stops (and no `F` stop) is
structurally invalid. -/
theorem c7_witness : is_line_valid invalidLine2 = false :=
  c7_is_line_valid_iff.2 invalidLine2 (by decide)
